import Mathlib

/-!
Verification of the ReactiveRS reactive synchronous runtime.

This file gives a shallow embedding of the final form of the engine
(`src/engine/mod.rs`, `src/engine/continuation.rs`, `src/engine/process.rs`,
`src/engine/signal/signal_runtime.rs`, `src/engine/signal/puresignal.rs`,
`src/engine/signal/value_signal.rs`) as a deterministic abstract machine.

Modelling choices:
* Rust values flowing through continuations are collapsed into one
  universe `Val` (unit, booleans, integers, strings, pairs, `LoopStatus`).
* Boxed continuations (`Box<Continuation<V>>`) are defunctionalized: the
  inductive `Cont` (continuations receiving a plain value) and `ContM`
  (continuations of `call_mut`, receiving a process together with a value)
  have one constructor per closure shape occurring in the source.
* Shared mutable state (`Rc`/`Arc` + `Mutex` cells of signals and join
  points) becomes explicit state in the `Runtime` record, addressed by
  list indices.
* The scheduler is the deterministic single-worker instance of
  `Runtime::work`: with one worker the work-stealing loop and the barriers
  degenerate, and `n_global_working > 0` is exactly "some local queue is
  non-empty".  The `n_workers` argument of `execute_process_steps` is kept
  in the interface but does not enter the deterministic semantics.
* `unreachable!()` and `Option::unwrap` failures are modelled by a
  `panicked` flag carrying the message; once set, execution is stuck.
* All recursion (a burst of continuation calls inside one instant can be
  unbounded, e.g. `loop_while` without `pause`) is bounded by explicit
  fuel; `exec` returns `none` when the fuel runs out.
-/

namespace ReactiveRS

/-- The value universe: every Rust value that flows through a continuation
in the programs under study.  `lsContinue` / `lsExit` are the two variants
of `LoopStatus<V>` (src/engine/process.rs). -/
inductive Val : Type where
  | unit : Val
  | bool : Bool → Val
  | int : Int → Val
  | str : String → Val
  | pair : Val → Val → Val
  | lsContinue : Val
  | lsExit : Val → Val
deriving DecidableEq, Repr

/-- An `FnMut` closure used by `map`: the first component is the captured
mutable state, the function maps (state, input) to (new state, output).
`Process::call` calls it once and drops the new state (`FnOnce` usage);
`ProcessMut::call_mut` stores the new state back into the rebuilt `Map`
process, which is how mutation is carried across loop iterations. -/
abbrev MapFn : Type := Val → Val → Val × Val

/-- Signal identifier: index into the machine's list of signal runtimes. -/
abbrev SigId : Type := Nat

/-- Join point identifier: index into the machine's list of join points. -/
abbrev JpId : Type := Nat

/-- Process syntax, one constructor per combinator used by the claims
(src/engine/process.rs and src/engine/signal/mod.rs).  Signals are
referenced by index; `map` carries the `FnMut` closure state. -/
inductive Process : Type where
  | value : Val → Process
  | map : Process → Val → MapFn → Process
  | pause : Process → Process
  | thenP : Process → Process → Process
  | join : Process → Process → Process
  | emit : SigId → Process → Process
  | awaitImmediate : SigId → Process
  | await : SigId → Process
  | awaitIn : SigId → Process
  | awaitOneImmediate : SigId → Process
  | present : SigId → Process → Process → Process
  | loopWhile : Process → Process

mutual
/-- Defunctionalized `Box<Continuation<_>>`: one constructor per closure
shape of the source.  A continuation stored in a scheduler queue always
awaits `()`; continuations awaiting a value are either invoked directly
or wrapped by `withVal` before being enqueued, exactly as the source
wraps them in `move |r, ()| c.call_box(r, v)`. -/
inductive Cont : Type where
  /-- the driver's closure storing the final value into the result slot
  (`execute_process_steps`, src/engine/mod.rs) -/
  | store : Cont
  /-- the driver's initial job: `process.call(runtime, store-closure)` -/
  | runP : Process → Cont → Cont
  /-- `move |r, ()| c.call_box(r, v)` : call `k` with the captured `v` -/
  | withVal : Cont → Val → Cont
  /-- `Pause::call`'s continuation: on `v`, push `withVal k v` onto
  `next_instant` (continuation `Pause`, src/engine/continuation.rs) -/
  | kpause : Cont → Cont
  /-- `Map::call`'s continuation: on `v`, call `k` with `f st v` -/
  | kmap : Val → MapFn → Cont → Cont
  /-- `Then::call`'s continuation: on `v1` (dropped), run `q` with `k` -/
  | kseq : Process → Cont → Cont
  /-- `Join::call`'s `c1` (first branch arrival at the join point) -/
  | kjoin1 : JpId → Cont
  /-- `Join::call`'s `c2` -/
  | kjoin2 : JpId → Cont
  /-- `Emit::call`'s continuation: on `v`, `signal.emit(v)` then `k ()` -/
  | kemit : SigId → Cont → Cont
  /-- `SignalRuntimeRef::await`'s wrapper: on `()`, push `k` to next -/
  | ktoNext : Cont → Cont
  /-- `Present::call`'s branch closure, awaiting the presence boolean -/
  | kpresent : SigId → Process → Process → Cont → Cont
  /-- `c_false` registered by `SignalRuntimeRef::present`: at end of
  instant, release all `testing_present` continuations with `false` -/
  | kcfalse : SigId → Cont
  /-- `end_update` registered by `SignalRuntimeRef::emit`: at end of
  instant, reset presence, release `waiting`, `release_await_in` -/
  | ksigend : SigId → Cont
  /-- `call_mut` wrappers of the signal processes (`AwaitImmediate`,
  `Await`, `AwaitIn`, `AwaitOneImmediate`): on `v`, hand the rebuilt
  process `p` and `v` to the mut continuation -/
  | kmret : Process → ContM → Cont
  /-- resumption stored on `next_instant` by `Pause::call_mut`:
  invoke the mut continuation with the captured process and value -/
  | kmresume : ContM → Process → Val → Cont
  /-- `Present::call_mut`'s branch closure, awaiting the boolean -/
  | kmpresent : SigId → Process → Process → ContM → Cont

/-- Defunctionalized continuations of `ProcessMut::call_mut`, awaiting a
pair (rebuilt process, value). -/
inductive ContM : Type where
  /-- `While::call` (Process instance of `While`, src/engine/process.rs) -/
  | kmwhile : Cont → ContM
  /-- `While::call_mut` -/
  | kmwhileM : ContM → ContM
  /-- `Map::call_mut`: apply the closure, rebuild `map` with new state -/
  | kmmap : Val → MapFn → ContM → ContM
  /-- `Then::call_mut`, first process done -/
  | kmseq1 : Process → ContM → ContM
  /-- `Then::call_mut`, second process done -/
  | kmseq2 : Process → ContM → ContM
  /-- `Join::call_mut` first branch arrival -/
  | kmjoin1 : JpId → ContM
  /-- `Join::call_mut` second branch arrival -/
  | kmjoin2 : JpId → ContM
  /-- `Emit::call_mut`: emit the value, rebuild the emit process -/
  | kmemit : SigId → ContM → ContM
  /-- `Pause::call_mut`: on (p, v), push a resumption onto next_instant -/
  | kmpauseK : ContM → ContM
  /-- `Present::call_mut`, rebuilding after the true branch -/
  | kmpres1 : SigId → Process → ContM → ContM
  /-- `Present::call_mut`, rebuilding after the false branch -/
  | kmpres2 : SigId → Process → ContM → ContM
end

/-- State of a `JoinPoint` (src/engine/process.rs): either the plain
variant of `Join::call` (two value cells plus the continuation cell) or
the `call_mut` variant whose cells hold (process, value) pairs. -/
inductive JpState : Type where
  | jp : Option Val → Option Val → Option Cont → JpState
  | jpM : Option (Process × Val) → Option (Process × Val) → Option ContM → JpState

/-- The per-kind value runtime (`ValueRuntime` implementations).
`pure` is `PureSignalValueRuntime` (src/engine/signal/puresignal.rs);
`mc` is `MCSignalValueRuntime` (src/engine/signal/value_signal.rs) with
fields `waiting_in`, `value`, `default`, `last_emitted`, `gather`. -/
inductive ValueRuntime : Type where
  | pure : ValueRuntime
  | mc : List Cont → Option Val → Val → Option Val → (Val → Val → Val) → ValueRuntime

/-- `SignalRuntime` (src/engine/signal/signal_runtime.rs): presence flag,
the four waiter queues, and the value runtime.  Queues are modelled as
lists with the head being the most recently pushed element: `Vec::push`
is cons and the draining `Vec::pop` takes the head. -/
structure SignalRuntime : Type where
  present : Bool
  waitingImmediate : List Cont
  waitingOneImmediate : List Cont
  testingPresent : List Cont
  waiting : List Cont
  vr : ValueRuntime

/-- `SignalRuntime::new value_runtime` -/
def SignalRuntime.new (vr : ValueRuntime) : SignalRuntime :=
  ⟨false, [], [], [], [], vr⟩

/-- A fresh pure signal (`PureSignal::new`). -/
def pureSignal : SignalRuntime := SignalRuntime.new ValueRuntime.pure

/-- A fresh value signal (`MCSignal::new default gather`): value slot is
`Some(default.clone())`, `last_emitted` is `None`. -/
def valueSignal (default : Val) (gather : Val → Val → Val) : SignalRuntime :=
  SignalRuntime.new (ValueRuntime.mc [] (some default) default none gather)

/-- The whole machine: the single worker's `Runtime` queues (`cur_instant`
is the worker end of the deque, a stack; `next_instant` and
`end_of_instant` are `Vec`s drained by popping, hence also stacks), the
shared signal runtimes and join points, the driver's result slot, the
completed-instant counter, and the panic flag. -/
structure Runtime : Type where
  cur : List Cont
  next : List Cont
  eoi : List Cont
  sigs : List SignalRuntime
  jps : List JpState
  result : Option Val
  instant : Nat
  panicked : Option String

instance : Inhabited Runtime := ⟨⟨[], [], [], [], [], none, 0, none⟩⟩

/-- set the panic flag (a Rust `panic!` / `unreachable!`). -/
def Runtime.crash (m : Runtime) (msg : String) : Runtime :=
  { m with panicked := some msg }

def Runtime.getSig (m : Runtime) (s : SigId) : Option SignalRuntime :=
  m.sigs.get? s

def Runtime.setSig (m : Runtime) (s : SigId) (st : SignalRuntime) : Runtime :=
  { m with sigs := m.sigs.set s st }

def Runtime.getJp (m : Runtime) (j : JpId) : Option JpState :=
  m.jps.get? j

def Runtime.setJp (m : Runtime) (j : JpId) (st : JpState) : Runtime :=
  { m with jps := m.jps.set j st }

/-- `ValueRuntime::emit` (value part only).  For `mc` this is
`MCSignalValueRuntime::emit`: fold the emitted value into the
accumulated value with `gather`; note that `last_emitted` is NOT
updated (this is exactly what the source does).  Returns `none` on the
`unwrap` of an empty value slot. -/
def ValueRuntime.emitV : ValueRuntime → Val → Option ValueRuntime
  | .pure, _ => some .pure
  | .mc wl val dflt le g, v =>
    match val with
    | none => none
    | some acc => some (.mc wl (some (g v acc)) dflt le g)

/-- `ValueRuntime::get`.  `PureSignalValueRuntime::get` is
`unreachable!()`; `MCSignalValueRuntime::get` unwraps `last_emitted`,
which is never written, so it returns `none` (an unwrap panic) whenever
it is reached. -/
def ValueRuntime.getV : ValueRuntime → Option Val
  | .pure => none
  | .mc _ _ _ le _ => le

/-- `SignalRuntimeRef::emit` (src/engine/signal/signal_runtime.rs,
lines 141-197).  Pure state transformation: it only enqueues
continuations, never calls one.  Draining a queue pops from the head
(most recent) and pushes onto `cur`, like the source's
`while let Some(c) = q.pop() { runtime.on_current_instant(c) }`. -/
def sigEmit (m : Runtime) (s : SigId) (v : Val) : Runtime :=
  match m.getSig s with
  | none => m.crash "emit: no such signal"
  | some st =>
    match st.vr.emitV v with
    | none => m.crash "unwrap None: MCSignalValueRuntime::emit"
    | some vr1 =>
      if st.present then
        -- subsequent emission: only the value runtime changes
        m.setSig s { st with vr := vr1 }
      else
        -- first emission of the instant
        let cur1 := st.waitingImmediate.foldl (fun acc c => c :: acc) m.cur
        let oneImm :=
          if st.waitingOneImmediate.isEmpty then some m.cur else
            match vr1.getV with
            | none => none
            | some w =>
              some (st.waitingOneImmediate.foldl
                (fun acc c => Cont.withVal c w :: acc) cur1)
        match oneImm with
        | none => m.crash "unwrap None: ValueRuntime::get during emit"
        | some cur2 =>
          let cur2 := if st.waitingOneImmediate.isEmpty then cur1 else cur2
          let cur3 := st.testingPresent.foldl
            (fun acc c => Cont.withVal c (Val.bool true) :: acc) cur2
          let m1 := m.setSig s
            { st with
              present := true,
              waitingImmediate := [],
              waitingOneImmediate := [],
              testingPresent := [],
              vr := vr1 }
          { m1 with cur := cur3, eoi := Cont.ksigend s :: m1.eoi }

/-- the `end_update` closure of `SignalRuntimeRef::emit`: reset presence,
release `waiting` onto the current (i.e. next) instant, then
`value_runtime.release_await_in`.  For a pure signal the latter is
`unreachable!()` — it panics.  For a value signal it releases every
`waiting_in` continuation with a clone of the gathered value and resets
the value slot to the default. -/
def sigEndOfInstant (m : Runtime) (s : SigId) : Runtime :=
  match m.getSig s with
  | none => m.crash "end_update: no such signal"
  | some st =>
    let cur1 := st.waiting.foldl (fun acc c => c :: acc) m.cur
    match st.vr with
    | .pure => m.crash "unreachable: PureSignalValueRuntime::release_await_in"
    | .mc wl val dflt le g =>
      match val with
      | none => m.crash "unwrap None: MCSignalValueRuntime::release_await_in"
      | some v =>
        let cur2 := wl.foldl (fun acc c => Cont.withVal c v :: acc) cur1
        let m1 := m.setSig s
          { st with
            present := false,
            waiting := [],
            vr := .mc [] (some dflt) dflt le g }
        { m1 with cur := cur2 }

/-- `SignalRuntimeRef::present`, absent branch: queue the tester and, if
the tester queue was empty, register `c_false` at end of instant. -/
def registerTest (m : Runtime) (s : SigId) (c : Cont) : Runtime :=
  match m.getSig s with
  | none => m.crash "present: no such signal"
  | some st =>
    let m1 := m.setSig s { st with testingPresent := c :: st.testingPresent }
    if st.testingPresent.isEmpty then
      { m1 with eoi := Cont.kcfalse s :: m1.eoi }
    else m1

/-- the `c_false` closure: pop every tester and push a wrapper calling it
with `false` onto the current instant queue (this runs at end of instant,
so those wrappers execute in the following instant). -/
def sigCFalse (m : Runtime) (s : SigId) : Runtime :=
  match m.getSig s with
  | none => m.crash "c_false: no such signal"
  | some st =>
    let cur1 := st.testingPresent.foldl
      (fun acc c => Cont.withVal c (Val.bool false) :: acc) m.cur
    let m1 := m.setSig s { st with testingPresent := [] }
    { m1 with cur := cur1 }

/-- `MCSignalValueRuntime::await_in`: queue the reader.  For a pure
signal `await_in` is `unreachable!()`. -/
def sigAwaitIn (m : Runtime) (s : SigId) (c : Cont) : Runtime :=
  match m.getSig s with
  | none => m.crash "await_in: no such signal"
  | some st =>
    match st.vr with
    | .pure => m.crash "unreachable: PureSignalValueRuntime::await_in"
    | .mc wl val dflt le g =>
      m.setSig s { st with vr := .mc (c :: wl) val dflt le g }

/-- Tasks of the abstract machine: calling a process (`Process::call` /
`ProcessMut::call_mut`), invoking a continuation, draining the current
instant queue, running a list of end-of-instant continuations, and the
worker loop `Runtime::work` (`work` is the top of the loop with its
iteration counter and cap; `afterA` is the point after phase A; `afterB`
the point after phase B where termination is decided). -/
inductive Job : Type where
  | callP : Process → Cont → Job
  | callM : Process → ContM → Job
  | invK : Cont → Val → Job
  | invM : ContM → Process → Val → Job
  | drainCur : Job
  | runList : List Cont → Job
  | work : Nat → Int → Job
  | afterA : Nat → Int → Job
  | afterB : Nat → Int → Job

/-- does the single worker still have work after an instant
(`local_work_to_do`, hence `n_global_working > 0`, for one worker)? -/
def Runtime.workToDo (m : Runtime) : Bool :=
  !(m.cur.isEmpty && m.next.isEmpty && m.eoi.isEmpty)

/-- Result of one machine step: finish with a state, tail-call another
task, or run a task to completion and then continue with a second task
from the resulting state (the sequencing present in `Join::call`,
the queue-draining loops, and `Runtime::work`). -/
inductive Step : Type where
  | done : Runtime → Step
  | jump : Job → Runtime → Step
  | fork : Job → Runtime → Job → Step

/-- One step of the machine.  Every branch is a direct transliteration of
the corresponding source function. -/
def step : Job → Runtime → Step
  | .callP p k, m =>
    match p with
    | .value v => .jump (.invK k v) m
    | .map p st f => .jump (.callP p (.kmap st f k)) m
    | .pause p => .jump (.callP p (.kpause k)) m
    | .thenP p q => .jump (.callP p (.kseq q k)) m
    | .join p q =>
      let j := m.jps.length
      let m1 := { m with jps := m.jps ++ [JpState.jp none none (some k)] }
      .fork (.callP p (.kjoin1 j)) m1 (.callP q (.kjoin2 j))
    | .emit s p => .jump (.callP p (.kemit s k)) m
    | .awaitImmediate s =>
      match m.getSig s with
      | none => .done (m.crash "on_signal: no such signal")
      | some st =>
        if st.present then .jump (.invK k Val.unit) m
        else .done (m.setSig s { st with waitingImmediate := k :: st.waitingImmediate })
    | .await s =>
      match m.getSig s with
      | none => .done (m.crash "on_signal: no such signal")
      | some st =>
        if st.present then .jump (.invK (.ktoNext k) Val.unit) m
        else .done (m.setSig s { st with waitingImmediate := Cont.ktoNext k :: st.waitingImmediate })
    | .awaitIn s => .done (sigAwaitIn m s k)
    | .awaitOneImmediate s =>
      match m.getSig s with
      | none => .done (m.crash "await_one_immediate: no such signal")
      | some st =>
        if st.present then
          match st.vr.getV with
          | none => .done (m.crash "unwrap None: ValueRuntime::get in await_one_immediate")
          | some w => .jump (.invK k w) m
        else .done (m.setSig s { st with waitingOneImmediate := k :: st.waitingOneImmediate })
    | .present s p q =>
      match m.getSig s with
      | none => .done (m.crash "present: no such signal")
      | some st =>
        if st.present then .jump (.invK (.kpresent s p q k) (Val.bool true)) m
        else .done (registerTest m s (.kpresent s p q k))
    | .loopWhile p => .jump (.callM p (.kmwhile k)) m
  | .callM p km, m =>
    match p with
    | .value v => .jump (.invM km (.value v) v) m
    | .map p st f => .jump (.callM p (.kmmap st f km)) m
    | .pause p => .jump (.callM p (.kmpauseK km)) m
    | .thenP p q => .jump (.callM p (.kmseq1 q km)) m
    | .join p q =>
      let j := m.jps.length
      let m1 := { m with jps := m.jps ++ [JpState.jpM none none (some km)] }
      .fork (.callM p (.kmjoin1 j)) m1 (.callM q (.kmjoin2 j))
    | .emit s p => .jump (.callM p (.kmemit s km)) m
    | .awaitImmediate s =>
      .jump (.callP (.awaitImmediate s) (.kmret (.awaitImmediate s) km)) m
    | .await s =>
      .jump (.callP (.await s) (.kmret (.await s) km)) m
    | .awaitIn s => .done (sigAwaitIn m s (.kmret (.awaitIn s) km))
    | .awaitOneImmediate s =>
      .jump (.callP (.awaitOneImmediate s) (.kmret (.awaitOneImmediate s) km)) m
    | .present s p q =>
      match m.getSig s with
      | none => .done (m.crash "present: no such signal")
      | some st =>
        if st.present then .jump (.invK (.kmpresent s p q km) (Val.bool true)) m
        else .done (registerTest m s (.kmpresent s p q km))
    | .loopWhile p => .jump (.callM p (.kmwhileM km)) m
  | .invK k v, m =>
    match k with
    | .store => .done { m with result := some v }
    | .runP p k => .jump (.callP p k) m
    | .withVal k w => .jump (.invK k w) m
    | .kpause k => .done { m with next := Cont.withVal k v :: m.next }
    | .kmap st f k => .jump (.invK k (f st v).2) m
    | .kseq q k => .jump (.callP q k) m
    | .kjoin1 j =>
      match m.getJp j with
      | some (.jp _ (some w) ko) =>
        match ko with
        | none => .done (m.crash "unwrap None: JoinPoint continuation")
        | some k => .jump (.invK k (.pair v w)) (m.setJp j (.jp none none none))
      | some (.jp _ none ko) => .done (m.setJp j (.jp (some v) none ko))
      | _ => .done (m.crash "join point missing")
    | .kjoin2 j =>
      match m.getJp j with
      | some (.jp (some w) _ ko) =>
        match ko with
        | none => .done (m.crash "unwrap None: JoinPoint continuation")
        | some k => .jump (.invK k (.pair w v)) (m.setJp j (.jp none none none))
      | some (.jp none _ ko) => .done (m.setJp j (.jp none (some v) ko))
      | _ => .done (m.crash "join point missing")
    | .kemit s k => .jump (.invK k Val.unit) (sigEmit m s v)
    | .ktoNext k => .done { m with next := k :: m.next }
    | .kpresent s p q k =>
      match v with
      | .bool true => .jump (.callP p k) m
      | .bool false => .jump (.callP q k) m
      | _ => .done (m.crash "present: non-boolean verdict")
    | .kcfalse s => .done (sigCFalse m s)
    | .ksigend s => .done (sigEndOfInstant m s)
    | .kmret p km => .jump (.invM km p v) m
    | .kmresume km p w => .jump (.invM km p w) m
    | .kmpresent s p q km =>
      match v with
      | .bool true => .jump (.callM p (.kmpres1 s q km)) m
      | .bool false => .jump (.callM q (.kmpres2 s p km)) m
      | _ => .done (m.crash "present: non-boolean verdict")
  | .invM km p v, m =>
    match km with
    | .kmwhile k =>
      match v with
      | .lsContinue => .jump (.callP (.loopWhile p) k) m
      | .lsExit w => .jump (.invK k w) m
      | _ => .done (m.crash "loop_while: value is not a LoopStatus")
    | .kmwhileM km =>
      match v with
      | .lsContinue => .jump (.callM (.loopWhile p) km) m
      | .lsExit w => .jump (.invM km (.loopWhile p) w) m
      | _ => .done (m.crash "loop_while: value is not a LoopStatus")
    | .kmmap st f km =>
      .jump (.invM km (.map p (f st v).1 f) (f st v).2) m
    | .kmseq1 q km => .jump (.callM q (.kmseq2 p km)) m
    | .kmseq2 p1 km => .jump (.invM km (.thenP p1 p) v) m
    | .kmjoin1 j =>
      match m.getJp j with
      | some (.jpM _ (some (q, w)) ko) =>
        match ko with
        | none => .done (m.crash "unwrap None: JoinPoint continuation")
        | some km =>
          .jump (.invM km (.join p q) (.pair v w)) (m.setJp j (.jpM none none none))
      | some (.jpM _ none ko) => .done (m.setJp j (.jpM (some (p, v)) none ko))
      | _ => .done (m.crash "join point missing")
    | .kmjoin2 j =>
      match m.getJp j with
      | some (.jpM (some (q, w)) _ ko) =>
        match ko with
        | none => .done (m.crash "unwrap None: JoinPoint continuation")
        | some km =>
          .jump (.invM km (.join q p) (.pair w v)) (m.setJp j (.jpM none none none))
      | some (.jpM none _ ko) => .done (m.setJp j (.jpM none (some (p, v)) ko))
      | _ => .done (m.crash "join point missing")
    | .kmemit s km => .jump (.invM km (.emit s p) Val.unit) (sigEmit m s v)
    | .kmpauseK km =>
      .done { m with next := Cont.kmresume km (.pause p) v :: m.next }
    | .kmpres1 s q km => .jump (.invM km (.present s p q) v) m
    | .kmpres2 s p1 km => .jump (.invM km (.present s p1 p) v) m
  | .drainCur, m =>
    match m.cur with
    | [] => .done m
    | c :: rest => .fork (.invK c Val.unit) { m with cur := rest } .drainCur
  | .runList l, m =>
    match l with
    | [] => .done m
    | c :: rest => .fork (.invK c Val.unit) m (.runList rest)
  | .work nIter maxIter, m =>
    -- top of the loop of `Runtime::work` (src/engine/mod.rs lines
    -- 131-209): `n_iter += 1; if max_iter != -1 && n_iter > max_iter`
    if maxIter ≠ -1 ∧ (nIter : Int) > maxIter then .done m
    else .fork .drainCur m (.afterA nIter maxIter)
  | .afterA nIter maxIter, m =>
    -- phase B: swap out end_of_instant, move next_instant into
    -- cur_instant, then execute the snapshot
    .fork (.runList m.eoi)
      { m with
        eoi := [],
        cur := m.next.foldl (fun acc c => c :: acc) m.cur,
        next := [] }
      (.afterB nIter maxIter)
  | .afterB nIter maxIter, m =>
    -- end of the loop body: one more instant is complete; continue iff
    -- there is local work (n_global_working > 0 for a single worker)
    let m4 := { m with instant := m.instant + 1 }
    if m4.workToDo then .jump (.work (nIter + 1) maxIter) m4
    else .done m4

/-- The fuel-indexed driver of the machine: repeatedly apply `step`.
Fuel only makes the (possibly diverging) recursion well-founded; `none`
means the fuel ran out.  A panicked state is stuck. -/
def exec : Nat → Job → Runtime → Option Runtime
  | 0, _, _ => none
  | Nat.succ g, t, m =>
    if m.panicked.isSome then some m else
    match step t m with
    | .done m1 => some m1
    | .jump t1 m1 => exec g t1 m1
    | .fork t1 m1 t2 => (exec g t1 m1).bind (fun m2 => exec g t2 m2)

/-- the initial machine for `execute_process_steps`: the job
`process.call(runtime, |_, value| result = Some(value))` is handed to the
worker's current-instant queue. -/
def initRuntime (sigs : List SignalRuntime) (p : Process) : Runtime :=
  { cur := [Cont.runP p Cont.store], next := [], eoi := [], sigs := sigs,
    jps := [], result := none, instant := 0, panicked := none }

/-- run the worker loop of `execute_process_steps` to completion (up to
fuel); `maxIters = -1` means no cap. -/
def runSteps (g : Nat) (sigs : List SignalRuntime) (p : Process)
    (maxIters : Int) : Option Runtime :=
  exec g (.work 1 maxIters) (initRuntime sigs p)

/-- outcome of an execution: the returned `Option` value, or a panic that
propagated out of the worker thread. -/
inductive ExecOutcome : Type where
  | ok : Option Val → ExecOutcome
  | panicked : String → ExecOutcome
deriving DecidableEq, Repr

/-- `execute_process_steps(process, n_workers, max_iters)`
(src/engine/mod.rs lines 238-257).  The worker count does not enter the
deterministic single-worker semantics and is kept for the interface. -/
def executeProcessSteps (g : Nat) (sigs : List SignalRuntime) (p : Process)
    (nWorkers : Nat) (maxIters : Int) : Option ExecOutcome :=
  let _ := nWorkers
  (runSteps g sigs p maxIters).map (fun m =>
    match m.panicked with
    | some msg => .panicked msg
    | none => .ok m.result)

/-- `execute_process(process)` (src/engine/mod.rs lines 231-236): run
with 6 workers and no cap; panic "Deadlock detected!" if no value was
stored. -/
def executeProcess (g : Nat) (sigs : List SignalRuntime) (p : Process) :
    Option ExecOutcome :=
  (executeProcessSteps g sigs p 6 (-1)).map (fun r =>
    match r with
    | .ok (some v) => .ok (some v)
    | .ok none => .panicked "Deadlock detected!"
    | .panicked msg => .panicked msg)

/-- number of completed instants of a run, for the "after n instants"
clauses of the spec. -/
def runInstants (g : Nat) (sigs : List SignalRuntime) (p : Process)
    (maxIters : Int) : Option Nat :=
  (runSteps g sigs p maxIters).map Runtime.instant


/-! ### Basic facts about the machine -/

@[simp] theorem crash_cur (m : Runtime) (s : String) : (m.crash s).cur = m.cur := rfl

@[simp] theorem crash_next (m : Runtime) (s : String) : (m.crash s).next = m.next := rfl

@[simp] theorem crash_instant (m : Runtime) (s : String) : (m.crash s).instant = m.instant := rfl

@[simp] theorem crash_result (m : Runtime) (s : String) : (m.crash s).result = m.result := rfl

@[simp] theorem crash_jps (m : Runtime) (s : String) : (m.crash s).jps = m.jps := rfl

@[simp] theorem crash_panicked (m : Runtime) (s : String) : (m.crash s).panicked = some s := rfl

@[simp] theorem setSig_cur (m : Runtime) (s : SigId) (st : SignalRuntime) :
    (m.setSig s st).cur = m.cur := rfl

@[simp] theorem setSig_next (m : Runtime) (s : SigId) (st : SignalRuntime) :
    (m.setSig s st).next = m.next := rfl

@[simp] theorem setSig_instant (m : Runtime) (s : SigId) (st : SignalRuntime) :
    (m.setSig s st).instant = m.instant := rfl

@[simp] theorem setSig_result (m : Runtime) (s : SigId) (st : SignalRuntime) :
    (m.setSig s st).result = m.result := rfl

@[simp] theorem setSig_jps (m : Runtime) (s : SigId) (st : SignalRuntime) :
    (m.setSig s st).jps = m.jps := rfl

@[simp] theorem setSig_panicked (m : Runtime) (s : SigId) (st : SignalRuntime) :
    (m.setSig s st).panicked = m.panicked := rfl

@[simp] theorem setSig_eoi (m : Runtime) (s : SigId) (st : SignalRuntime) :
    (m.setSig s st).eoi = m.eoi := rfl

@[simp] theorem crash_eoi (m : Runtime) (s : String) : (m.crash s).eoi = m.eoi := rfl

@[simp] theorem setJp_eoi (m : Runtime) (j : JpId) (st : JpState) :
    (m.setJp j st).eoi = m.eoi := rfl

@[simp] theorem setJp_next (m : Runtime) (j : JpId) (st : JpState) :
    (m.setJp j st).next = m.next := rfl

@[simp] theorem setJp_instant (m : Runtime) (j : JpId) (st : JpState) :
    (m.setJp j st).instant = m.instant := rfl

@[simp] theorem setJp_result (m : Runtime) (j : JpId) (st : JpState) :
    (m.setJp j st).result = m.result := rfl

@[simp] theorem setJp_panicked (m : Runtime) (j : JpId) (st : JpState) :
    (m.setJp j st).panicked = m.panicked := rfl

@[simp] theorem setJp_cur (m : Runtime) (j : JpId) (st : JpState) :
    (m.setJp j st).cur = m.cur := rfl

@[simp] theorem setJp_sigs (m : Runtime) (j : JpId) (st : JpState) :
    (m.setJp j st).sigs = m.sigs := rfl

theorem sigEmit_next (m : Runtime) (s : SigId) (v : Val) :
    (sigEmit m s v).next = m.next := by
  unfold sigEmit
  repeat' split
  all_goals rfl

theorem sigEmit_instant (m : Runtime) (s : SigId) (v : Val) :
    (sigEmit m s v).instant = m.instant := by
  unfold sigEmit
  repeat' split
  all_goals rfl

theorem sigEmit_result (m : Runtime) (s : SigId) (v : Val) :
    (sigEmit m s v).result = m.result := by
  unfold sigEmit
  repeat' split
  all_goals rfl

theorem sigEmit_jps (m : Runtime) (s : SigId) (v : Val) :
    (sigEmit m s v).jps = m.jps := by
  unfold sigEmit
  repeat' split
  all_goals rfl

theorem sigEmit_panicked_of (m : Runtime) (s : SigId) (v : Val) :
    (sigEmit m s v).panicked = m.panicked ∨ ((sigEmit m s v).panicked).isSome := by
  unfold sigEmit
  repeat' split
  all_goals simp

theorem sigEndOfInstant_next (m : Runtime) (s : SigId) :
    (sigEndOfInstant m s).next = m.next := by
  unfold sigEndOfInstant
  repeat' split
  all_goals rfl

theorem sigEndOfInstant_instant (m : Runtime) (s : SigId) :
    (sigEndOfInstant m s).instant = m.instant := by
  unfold sigEndOfInstant
  repeat' split
  all_goals rfl

theorem sigCFalse_instant (m : Runtime) (s : SigId) :
    (sigCFalse m s).instant = m.instant := by
  unfold sigCFalse
  repeat' split
  all_goals rfl

theorem registerTest_instant (m : Runtime) (s : SigId) (c : Cont) :
    (registerTest m s c).instant = m.instant := by
  unfold registerTest
  repeat' split
  all_goals rfl

theorem sigAwaitIn_instant (m : Runtime) (s : SigId) (c : Cont) :
    (sigAwaitIn m s c).instant = m.instant := by
  unfold sigAwaitIn
  repeat' split
  all_goals rfl

@[simp] theorem exec_zero (t : Job) (m : Runtime) : exec 0 t m = none := rfl

theorem exec_panicked {g : Nat} (t : Job) {m : Runtime} (h : m.panicked.isSome)
    (hg : 1 ≤ g) : exec g t m = some m := by
  match g, hg with
  | Nat.succ g, _ => rw [exec]; simp [h]

/-- unfolding of `exec` at successor fuel, in `step` form. -/
theorem exec_succ_eq (g : Nat) (t : Job) (m : Runtime) :
    exec (g + 1) t m =
      (if m.panicked.isSome then some m else
        match step t m with
        | .done m1 => some m1
        | .jump t1 m1 => exec g t1 m1
        | .fork t1 m1 t2 => (exec g t1 m1).bind (fun m2 => exec g t2 m2)) := rfl

/-- jobs that are not part of the worker loop itself: anything reachable
from a continuation call.  Only the worker loop advances the instant
counter. -/
def Job.schedFree : Job → Bool
  | .work _ _ => false
  | .afterA _ _ => false
  | .afterB _ _ => false
  | _ => true

/-- invariant transported by one `step` from a scheduler-free job:
successor states keep the instant, successor jobs are scheduler-free. -/
def stepPreserves (m : Runtime) : Step → Prop
  | .done m1 => m1.instant = m.instant
  | .jump t1 m1 => t1.schedFree = true ∧ m1.instant = m.instant
  | .fork t1 m1 t2 => t1.schedFree = true ∧ t2.schedFree = true ∧ m1.instant = m.instant

theorem step_schedFree (t : Job) (m : Runtime) (ht : t.schedFree = true) :
    stepPreserves m (step t m) := by
  cases t with
  | callP p k =>
    cases p <;> simp only [step] <;> repeat' split
    all_goals simp [stepPreserves, Job.schedFree, sigAwaitIn_instant, registerTest_instant]
  | callM p km =>
    cases p <;> simp only [step] <;> repeat' split
    all_goals simp [stepPreserves, Job.schedFree, sigAwaitIn_instant, registerTest_instant]
  | invK k v =>
    cases k <;> simp only [step] <;> repeat' split
    all_goals
      simp [stepPreserves, Job.schedFree, sigEmit_instant, sigCFalse_instant,
        sigEndOfInstant_instant]
  | invM km p v =>
    cases km <;> simp only [step] <;> repeat' split
    all_goals simp [stepPreserves, Job.schedFree, sigEmit_instant]
  | drainCur =>
    simp only [step]; repeat' split
    all_goals simp [stepPreserves, Job.schedFree]
  | runList l =>
    simp only [step]; repeat' split
    all_goals simp [stepPreserves, Job.schedFree]
  | work nIter maxIter => simp [Job.schedFree] at ht
  | afterA nIter maxIter => simp [Job.schedFree] at ht
  | afterB nIter maxIter => simp [Job.schedFree] at ht

/-- a burst of continuation calls never advances the instant counter:
instants advance only in the worker loop. -/
theorem exec_schedFree_instant : ∀ g t m mf, t.schedFree = true →
    exec g t m = some mf → mf.instant = m.instant := by
  intro g
  induction g with
  | zero => intro t m mf _ h; simp at h
  | succ g ih =>
    intro t m mf ht h
    rw [exec_succ_eq] at h
    by_cases hp : m.panicked.isSome
    · rw [if_pos hp] at h
      cases h; rfl
    · rw [if_neg hp] at h
      have hsp := step_schedFree t m ht
      cases hs : step t m with
      | done m1 =>
        rw [hs] at h hsp
        cases h
        exact hsp
      | jump t1 m1 =>
        rw [hs] at h hsp
        rw [ih t1 m1 mf hsp.1 h, hsp.2]
      | fork t1 m1 t2 =>
        rw [hs] at h hsp
        rcases Option.bind_eq_some.mp h with ⟨ma, h1, h2⟩
        rw [ih t2 ma mf hsp.2.1 h2, ih t1 m1 ma hsp.1 h1, hsp.2.2]

/-- Across one loop of `Runtime::work` with a non-negative cap, the number
of completed instants is bounded by the remaining iteration budget. -/
theorem work_instant_bound : ∀ g,
    (∀ nIter maxIter (m mf : Runtime),
      exec g (.work nIter maxIter) m = some mf →
      0 ≤ maxIter → (nIter : Int) ≤ maxIter + 1 →
      (mf.instant : Int) ≤ (m.instant : Int) + (maxIter + 1 - (nIter : Int))) ∧
    (∀ nIter maxIter (m mf : Runtime),
      exec g (.afterA nIter maxIter) m = some mf →
      0 ≤ maxIter → (nIter : Int) ≤ maxIter →
      (mf.instant : Int) ≤ (m.instant : Int) + (maxIter + 1 - (nIter : Int))) ∧
    (∀ nIter maxIter (m mf : Runtime),
      exec g (.afterB nIter maxIter) m = some mf →
      0 ≤ maxIter → (nIter : Int) ≤ maxIter →
      (mf.instant : Int) ≤ (m.instant : Int) + (maxIter + 1 - (nIter : Int))) := by
  intro g
  induction g using Nat.strong_induction_on with
  | _ g ih =>
    match g with
    | 0 =>
      refine ⟨?_, ?_, ?_⟩ <;> intro nIter maxIter m mf h <;> simp at h
    | Nat.succ g =>
      obtain ⟨ihW, ihA, ihB⟩ := ih g (Nat.lt_succ_self g)
      refine ⟨?_, ?_, ?_⟩
      · -- .work
        intro nIter maxIter m mf h h0 hle
        rw [exec_succ_eq] at h
        by_cases hp : m.panicked.isSome
        · rw [if_pos hp] at h; cases h; omega
        · rw [if_neg hp] at h
          simp only [step] at h
          by_cases hcap : maxIter ≠ -1 ∧ (nIter : Int) > maxIter
          · rw [if_pos hcap] at h
            replace h : some m = some mf := h
            cases h; omega
          · rw [if_neg hcap] at h
            replace h : (exec g .drainCur m).bind
                (fun m2 => exec g (.afterA nIter maxIter) m2) = some mf := h
            rcases Option.bind_eq_some.mp h with ⟨ma, h1, h2⟩
            have hia := exec_schedFree_instant g .drainCur m ma rfl h1
            have hcap2 : (nIter : Int) ≤ maxIter := by
              rcases not_and_or.mp hcap with hc | hc
              · omega
              · omega
            have := ihA nIter maxIter ma mf h2 h0 hcap2
            omega
      · -- .afterA
        intro nIter maxIter m mf h h0 hle
        rw [exec_succ_eq] at h
        by_cases hp : m.panicked.isSome
        · rw [if_pos hp] at h; cases h; omega
        · rw [if_neg hp] at h
          simp only [step] at h
          replace h : (exec g (.runList m.eoi)
              { m with
                eoi := [],
                cur := m.next.foldl (fun acc c => c :: acc) m.cur,
                next := [] }).bind
              (fun m2 => exec g (.afterB nIter maxIter) m2) = some mf := h
          rcases Option.bind_eq_some.mp h with ⟨ma, h1, h2⟩
          have hia := exec_schedFree_instant g (.runList m.eoi) _ ma rfl h1
          have := ihB nIter maxIter ma mf h2 h0 hle
          simp at hia
          omega
      · -- .afterB
        intro nIter maxIter m mf h h0 hle
        rw [exec_succ_eq] at h
        by_cases hp : m.panicked.isSome
        · rw [if_pos hp] at h; cases h; omega
        · rw [if_neg hp] at h
          simp only [step] at h
          by_cases hw : ({ m with instant := m.instant + 1 } : Runtime).workToDo = true
          · rw [if_pos hw] at h
            replace h : exec g (.work (nIter + 1) maxIter)
                { m with instant := m.instant + 1 } = some mf := h
            have := ihW (nIter + 1) maxIter _ mf h h0 (by push_cast; omega)
            simp at this
            push_cast at this ⊢
            omega
          · rw [if_neg hw] at h
            replace h : some ({ m with instant := m.instant + 1 } : Runtime) = some mf := h
            cases h; simp; omega

/-! ### Example programs from the specification's boundary scenarios -/

/-- integer addition as a gather function (`|v1, v2| v1 + v2`). -/
def intAdd : Val → Val → Val
  | .int a, .int b => .int (a + b)
  | _, _ => .unit

/-- `value(()).pause().pause().map(|_| 7)` -/
def pausePause7 : Process :=
  .map (.pause (.pause (.value .unit))) .unit (fun _ _ => (.unit, .int 7))

/-- `s.emit(value(())).join(s.await_immediate().map(|_| "hit"))` over a
pure signal `s`. -/
def pureEmitJoinProg : Process :=
  .join (.emit 0 (.value .unit))
    (.map (.awaitImmediate 0) .unit (fun _ _ => (.unit, .str "hit")))

/-- `value(1).emit(s).then(value(2).emit(s)).then(s.await_in())` over a
value signal `s = value_signal(0, +)`. -/
def valueSignalScenario : Process :=
  .thenP (.thenP (.emit 0 (.value (.int 1))) (.emit 0 (.value (.int 2))))
    (.awaitIn 0)

/-- `s.emit(value(1)).join(s.await_one_immediate())` over a value
signal. -/
def awaitOneProg : Process :=
  .join (.emit 0 (.value (.int 1))) (.awaitOneImmediate 0)

/-- same with the reader registered before the emission. -/
def awaitOneProgRev : Process :=
  .join (.awaitOneImmediate 0) (.emit 0 (.value (.int 1)))

/-- the accumulated-value slot of a value signal, for observing the
gather/reset behaviour. -/
def sigValueSlot (m : Runtime) (s : SigId) : Option Val :=
  match m.getSig s with
  | some st =>
    match st.vr with
    | .mc _ v _ _ _ => v
    | _ => none
  | none => none

/-- the `last_emitted` slot of a value signal. -/
def sigLastEmitted (m : Runtime) (s : SigId) : Option Val :=
  match m.getSig s with
  | some st =>
    match st.vr with
    | .mc _ _ _ le _ => le
    | _ => none
  | none => none

/-! ### C1: the top-level driver contract -/

/-- C1.  The driver contract of `execute_process_steps` /
`execute_process` (src/engine/mod.rs lines 231-257): a run that
terminates without a panic returns exactly the machine's result slot
(`Some(v)` iff the process stored its final value `v`, `None` on a stall
or an exhausted cap); `execute_process` forwards a stored value and
raises the "Deadlock detected!" panic when the slot is empty.
Concretely, `execute(value(42), 1 worker, unbounded)` returns `Some(42)`
after one instant, and a process stalled on a never-emitted signal
returns `None` (which `execute_process` turns into the deadlock
panic). -/
theorem C1_driver_contract :
    (∀ g sigs (p : Process) nw maxIters (m : Runtime),
      runSteps g sigs p maxIters = some m → m.panicked = none →
      executeProcessSteps g sigs p nw maxIters = some (.ok m.result)) ∧
    (∀ g sigs (p : Process) (v : Val),
      executeProcessSteps g sigs p 6 (-1) = some (.ok (some v)) →
      executeProcess g sigs p = some (.ok (some v))) ∧
    (∀ g sigs (p : Process),
      executeProcessSteps g sigs p 6 (-1) = some (.ok none) →
      executeProcess g sigs p = some (.panicked "Deadlock detected!")) ∧
    executeProcessSteps 100 [] (.value (.int 42)) 1 (-1) =
      some (.ok (some (.int 42))) ∧
    runInstants 100 [] (.value (.int 42)) (-1) = some 1 ∧
    executeProcessSteps 100 [pureSignal] (.awaitImmediate 0) 1 (-1) =
      some (.ok none) ∧
    executeProcess 100 [pureSignal] (.awaitImmediate 0) =
      some (.panicked "Deadlock detected!") := by
  refine ⟨?_, ?_, ?_, rfl, rfl, rfl, rfl⟩
  · intro g sigs p nw maxIters m h hp
    unfold executeProcessSteps
    rw [h]
    simp [hp]
  · intro g sigs p v h
    unfold executeProcess
    rw [h]
    rfl
  · intro g sigs p h
    unfold executeProcess
    rw [h]
    rfl

theorem C1_driver_contract_witness :
    executeProcess 100 [] (.value (.int 42)) = some (.ok (some (.int 42))) :=
  C1_driver_contract.2.1 100 [] (.value (.int 42)) (.int 42) (by rfl)

/-! ### C2: the pure-signal emit/await_immediate scenario -/

/-- C2.  The claim's scenario
`execute(s.emit(value(())).join(s.await_immediate().map(|_| "hit")))`
does NOT return `Some(((), "hit"))`: the value is computed and stored in
instant 1 (second conjunct), but the end-of-instant continuation
registered by the emission calls
`PureSignalValueRuntime::release_await_in`, which the source defines as
`unreachable!()` (src/engine/signal/puresignal.rs lines 27-29), so the
run panics instead of completing normally. -/
theorem C2_pure_signal_scenario_hits_unreachable :
    executeProcessSteps 200 [pureSignal] pureEmitJoinProg 2 (-1) =
      some (.panicked "unreachable: PureSignalValueRuntime::release_await_in") ∧
    (runSteps 200 [pureSignal] pureEmitJoinProg (-1)).map
        (fun m => (m.result, m.panicked)) =
      some (some (.pair .unit (.str "hit")),
        some "unreachable: PureSignalValueRuntime::release_await_in") := by
  exact ⟨rfl, rfl⟩

/-! ### C3: await_one_immediate on a value signal -/

/-- C3.  On a value signal, `await_one_immediate` never delivers the last
emitted input: `MCSignalValueRuntime::emit`
(src/engine/signal/value_signal.rs lines 29-33) never writes
`last_emitted`, so `get` (lines 55-58) unwraps `None` and panics — in
the current instant if the signal is already present, and during the
first emission otherwise.  The third conjunct shows the field is still
`None` after a completed emission. -/
theorem C3_await_one_immediate_panics :
    executeProcessSteps 200 [valueSignal (.int 0) intAdd] awaitOneProg 2 (-1) =
      some (.panicked "unwrap None: ValueRuntime::get in await_one_immediate") ∧
    executeProcessSteps 200 [valueSignal (.int 0) intAdd] awaitOneProgRev 2 (-1) =
      some (.panicked "unwrap None: ValueRuntime::get during emit") ∧
    (runSteps 200 [valueSignal (.int 0) intAdd] (.emit 0 (.value (.int 1))) (-1)).map
        (fun m => (sigLastEmitted m 0, m.result, m.panicked)) =
      some (none, some .unit, none) := by
  exact ⟨rfl, rfl, rfl⟩

/-! ### C6: the value-signal gather/read scenario -/

/-- C6.  With `s = value_signal(0, +)`,
`execute(value(1).emit(s).then(value(2).emit(s)).then(s.await_in()))`
returns `Some(3)` after two instants: both emissions are folded in
instant 1, the `await_in` reader observes the gathered output `3` in
instant 2, and the accumulated slot is reset to the default `0`.  With
the cap `max_iters = 1` the read has not yet happened and the driver
returns `None`. -/
theorem C6_value_signal_scenario :
    executeProcessSteps 400 [valueSignal (.int 0) intAdd] valueSignalScenario 1 (-1) =
      some (.ok (some (.int 3))) ∧
    runInstants 400 [valueSignal (.int 0) intAdd] valueSignalScenario (-1) =
      some 2 ∧
    (runSteps 400 [valueSignal (.int 0) intAdd] valueSignalScenario (-1)).map
        (fun m => sigValueSlot m 0) = some (some (.int 0)) ∧
    executeProcessSteps 400 [valueSignal (.int 0) intAdd] valueSignalScenario 1 1 =
      some (.ok none) := by
  exact ⟨rfl, rfl, rfl, rfl⟩

/-! ### C10: the iteration cap -/

/-- C10.  `execute_process_steps(p, n, 0)` returns `None` without
executing anything: the worker loop increments its counter to 1 and
breaks before phase A (`Runtime::work`, src/engine/mod.rs lines
131-139), leaving the machine in its initial state.  In general, with a
cap `maxIters ≥ 0` a worker completes at most `maxIters` instants. -/
theorem C10_iteration_cap :
    (∀ g sigs (p : Process), runSteps (g + 1) sigs p 0 = some (initRuntime sigs p)) ∧
    (∀ g sigs (p : Process) nw, executeProcessSteps (g + 1) sigs p nw 0 = some (.ok none)) ∧
    (∀ g sigs (p : Process) (maxIters : Int) (m : Runtime),
      runSteps g sigs p maxIters = some m → 0 ≤ maxIters →
      (m.instant : Int) ≤ maxIters) := by
  refine ⟨fun g sigs p => rfl, fun g sigs p nw => rfl, ?_⟩
  intro g sigs p maxIters m h h0
  have := (work_instant_bound g).1 1 maxIters (initRuntime sigs p) m h h0 (by omega)
  simp [initRuntime] at this
  omega

theorem C10_iteration_cap_witness :
    runSteps 5 [] (.value (.int 9)) 0 = some (initRuntime [] (.value (.int 9))) ∧
    executeProcessSteps 5 [] (.value (.int 9)) 3 0 = some (.ok none) ∧
    ((((runSteps 100 [] (.value (.int 9)) 2).getD default).instant : Int) ≤ 2) :=
  ⟨C10_iteration_cap.1 4 [] (.value (.int 9)),
    C10_iteration_cap.2.1 4 [] (.value (.int 9)) 3,
    C10_iteration_cap.2.2 100 [] (.value (.int 9)) 2
      ((runSteps 100 [] (.value (.int 9)) 2).getD default) rfl (by omega)⟩

/-! ### The signal runtime: emission, presence tests -/

/-- draining a queue (`while let Some(c) = q.pop() { push }`) reverses it
onto the target stack. -/
theorem foldl_push_eq {α β : Type} (f : α → β) (l : List α) (acc : List β) :
    l.foldl (fun a c => f c :: a) acc = (l.map f).reverse ++ acc := by
  induction l generalizing acc with
  | nil => rfl
  | cons c rest ih => simp [ih]

theorem getSig_lt {m : Runtime} {s : SigId} {st : SignalRuntime}
    (h : m.getSig s = some st) : s < m.sigs.length := by
  rcases List.get?_eq_some.mp h with ⟨e, _⟩
  exact e

theorem getSig_setSig {m : Runtime} {s : SigId} {st : SignalRuntime}
    (h : m.getSig s = some st) (st2 : SignalRuntime) :
    (m.setSig s st2).getSig s = some st2 :=
  List.get?_set_eq_of_lt st2 (getSig_lt h)

/-- posting a presence test while the signal is absent
(`SignalRuntimeRef::present`, src/engine/signal/signal_runtime.rs lines
95-129): the tester is queued, and the end-of-instant `c_false`
dispatcher is registered exactly when the tester queue was empty. -/
theorem registerTest_eq {m : Runtime} {s : SigId} {st : SignalRuntime}
    (hsig : m.getSig s = some st) (c : Cont) :
    registerTest m s c =
      { m.setSig s { st with testingPresent := c :: st.testingPresent } with
        eoi := if st.testingPresent.isEmpty then Cont.kcfalse s :: m.eoi else m.eoi } := by
  simp only [registerTest, hsig]
  by_cases he : st.testingPresent.isEmpty
  · simp [he]
  · simp [he]
    rfl

/-- the `c_false` end-of-instant continuation releases every queued
tester, wrapped with the verdict `false`, onto the current-instant queue
(which at that point belongs to the next instant), and empties the
tester queue. -/
theorem sigCFalse_eq {m : Runtime} {s : SigId} {st : SignalRuntime}
    (hsig : m.getSig s = some st) :
    sigCFalse m s =
      { m.setSig s { st with testingPresent := [] } with
        cur := (st.testingPresent.map
          (fun c => Cont.withVal c (Val.bool false))).reverse ++ m.cur } := by
  simp only [sigCFalse, hsig]
  simp [foldl_push_eq]

/-! ### C9: only the first emission of an instant changes the signal -/

/-- a machine holding one given signal (used to instantiate the signal
theorems at concrete states). -/
def mWithSig (st : SignalRuntime) : Runtime := initRuntime [st] (.value .unit)

/-- `present(p, q)` over an absent signal versus a present one. -/
def presentChoice : Process := .present 0 (.value (.int 1)) (.value (.int 2))

/-- `emit` then `present` in the same instant, via `join`. -/
def presentAfterEmitProg : Process :=
  .join (.emit 0 (.value (.int 5))) presentChoice

/-- `present` registered before the `emit` of the same instant. -/
def presentBeforeEmitProg : Process :=
  .join presentChoice (.emit 0 (.value (.int 5)))

/-- C4.  Presence-test completeness for `present(p, q)`
(`Present::call`, src/engine/signal/mod.rs lines 194-209, and
`SignalRuntimeRef::present`, src/engine/signal/signal_runtime.rs lines
95-129):
1. if the signal is already present, `p` starts immediately, in the
   registration instant;
2. if the signal is absent, the branch continuation is queued on
   `testing_present` and the end-of-instant `c_false` dispatcher is
   registered exactly when the tester queue was empty (so it is
   registered once, by the first test posted while absent);
3. the `c_false` dispatcher releases every queued tester with the `false`
   verdict onto the (next instant's) current queue and empties the
   queue, and a first emission drains the queue with the `true` verdict
   (see the signal lemmas) — each registered test is therefore resolved
   exactly once, by whichever of the two events comes first;
4. concretely: with no emission, `present(value 1, value 2)` returns `2`
   and needs two instants (`q` never starts in the registration
   instant); with an emission in the same instant — on either side of
   the registration — `p` starts and completes within instant 1.  -/
theorem C4_presence_test_completeness :
    (∀ g (s : SigId) (p q : Process) (k : Cont) (m : Runtime) (st : SignalRuntime),
      m.panicked = none → m.getSig s = some st → st.present = true →
      exec (g + 2) (.callP (.present s p q) k) m = exec g (.callP p k) m) ∧
    (∀ g (s : SigId) (p q : Process) (k : Cont) (m : Runtime) (st : SignalRuntime),
      m.panicked = none → m.getSig s = some st → st.present = false →
      exec (g + 1) (.callP (.present s p q) k) m =
        some { m.setSig s
            { st with testingPresent := Cont.kpresent s p q k :: st.testingPresent } with
          eoi := if st.testingPresent.isEmpty then Cont.kcfalse s :: m.eoi else m.eoi }) ∧
    (∀ (m : Runtime) (s : SigId) (st : SignalRuntime), m.getSig s = some st →
      sigCFalse m s =
        { m.setSig s { st with testingPresent := [] } with
          cur := (st.testingPresent.map
            (fun c => Cont.withVal c (Val.bool false))).reverse ++ m.cur }) ∧
    executeProcessSteps 200 [pureSignal] presentChoice 1 (-1) =
      some (.ok (some (.int 2))) ∧
    runInstants 200 [pureSignal] presentChoice (-1) = some 2 ∧
    executeProcessSteps 200 [valueSignal (.int 0) intAdd] presentAfterEmitProg 1 (-1) =
      some (.ok (some (.pair .unit (.int 1)))) ∧
    runInstants 200 [valueSignal (.int 0) intAdd] presentAfterEmitProg (-1) = some 1 ∧
    executeProcessSteps 200 [valueSignal (.int 0) intAdd] presentBeforeEmitProg 1 (-1) =
      some (.ok (some (.pair (.int 1) .unit))) ∧
    runInstants 200 [valueSignal (.int 0) intAdd] presentBeforeEmitProg (-1) = some 1 := by
  refine ⟨?_, ?_, fun m s st h => sigCFalse_eq h, rfl, rfl, rfl, rfl, rfl, rfl⟩
  · intro g s p q k m st hm hsig hpres
    rw [exec_succ_eq]
    simp only [hm, Option.isSome_none, Bool.false_eq_true, if_false]
    simp only [step, hsig, hpres, if_true]
    rw [exec_succ_eq]
    simp only [hm, Option.isSome_none, Bool.false_eq_true, if_false]
    simp only [step]
  · intro g s p q k m st hm hsig hpres
    rw [exec_succ_eq]
    simp only [hm, Option.isSome_none, Bool.false_eq_true, if_false]
    simp only [step, hsig, hpres, Bool.false_eq_true, if_false]
    rw [registerTest_eq hsig, hpres]

theorem C4_presence_test_completeness_witness :
    (exec 7 (.callP (.present 0 (.value (.int 1)) (.value (.int 2))) .store)
        (mWithSig { pureSignal with present := true }) =
      exec 5 (.callP (.value (.int 1)) .store)
        (mWithSig { pureSignal with present := true })) ∧
    (exec 6 (.callP (.present 0 (.value (.int 1)) (.value (.int 2))) .store)
        (mWithSig pureSignal) =
      some { (mWithSig pureSignal).setSig 0
          { pureSignal with
            testingPresent := [Cont.kpresent 0 (.value (.int 1)) (.value (.int 2)) .store] } with
        eoi := Cont.kcfalse 0 :: (mWithSig pureSignal).eoi }) ∧
    sigCFalse (mWithSig pureSignal) 0 =
      { (mWithSig pureSignal).setSig 0 { pureSignal with testingPresent := [] } with
        cur := ((pureSignal.testingPresent.map
          (fun c => Cont.withVal c (Val.bool false))).reverse ++ (mWithSig pureSignal).cur) } :=
  ⟨C4_presence_test_completeness.1 5 0 (.value (.int 1)) (.value (.int 2)) .store
      (mWithSig { pureSignal with present := true }) _ rfl rfl rfl,
   C4_presence_test_completeness.2.1 5 0 (.value (.int 1)) (.value (.int 2)) .store
      (mWithSig pureSignal) _ rfl rfl rfl,
   C4_presence_test_completeness.2.2.1 (mWithSig pureSignal) 0 _ rfl⟩

/-! ### Suspension-free processes and single-instant bursts -/

/-- processes that contain no suspension: built from `value`, `map`,
`then`, `join` and `emit` only (no `pause`, no signal waiting, no
presence test, no loop).  Such a process completes within the instant in
which it is called. -/
def Process.noSusp : Process → Bool
  | .value _ => true
  | .map p _ _ => p.noSusp
  | .thenP p q => p.noSusp && q.noSusp
  | .join p q => p.noSusp && q.noSusp
  | .emit _ p => p.noSusp
  | _ => false

/-- the value a suspension-free process delivers to its continuation
(`FnOnce` reading of the closures).  It does not depend on the machine
state. -/
def Process.evalNow : Process → Val
  | .value v => v
  | .map p st f => (f st p.evalNow).2
  | .thenP _ q => q.evalNow
  | .join p q => .pair p.evalNow q.evalNow
  | .emit _ _ => .unit
  | _ => .unit

/-- `call_mut` reading of a suspension-free process: the rebuilt process
(with mutated closure states) together with the delivered value. -/
def Process.evalNowM : Process → Process × Val
  | .value v => (.value v, v)
  | .map p st f =>
    (.map p.evalNowM.1 (f st p.evalNowM.2).1 f, (f st p.evalNowM.2).2)
  | .thenP p q => (.thenP p.evalNowM.1 q.evalNowM.1, q.evalNowM.2)
  | .join p q => (.join p.evalNowM.1 q.evalNowM.1, .pair p.evalNowM.2 q.evalNowM.2)
  | .emit s p => (.emit s p.evalNowM.1, .unit)
  | p => (p, .unit)

/-- what a burst (the execution of a suspension-free process up to the
point where its outer continuation is invoked) preserves of the machine:
the next-instant queue, the instant counter, the result slot, and every
join point that existed before the burst. -/
def frame (m mm : Runtime) : Prop :=
  mm.next = m.next ∧ mm.instant = m.instant ∧ mm.result = m.result ∧
  m.jps.length ≤ mm.jps.length ∧
  ∀ j, j < m.jps.length → mm.jps.get? j = m.jps.get? j

theorem frame_refl (m : Runtime) : frame m m :=
  ⟨rfl, rfl, rfl, le_refl _, fun _ _ => rfl⟩

theorem frame_trans {m1 m2 m3 : Runtime} (h1 : frame m1 m2) (h2 : frame m2 m3) :
    frame m1 m3 := by
  obtain ⟨a1, b1, c1, d1, e1⟩ := h1
  obtain ⟨a2, b2, c2, d2, e2⟩ := h2
  refine ⟨a2.trans a1, b2.trans b1, c2.trans c1, d1.trans d2, fun j hj => ?_⟩
  rw [e2 j (lt_of_lt_of_le hj d1), e1 j hj]

/-- allocating a fresh join point is a frame extension. -/
theorem frame_allocJp (m : Runtime) (x : JpState) :
    frame m { m with jps := m.jps ++ [x] } := by
  refine ⟨rfl, rfl, rfl, by simp, fun j hj => ?_⟩
  exact List.get?_append hj

/-- overwriting a join point allocated during the burst (index at or
above the original length) keeps the frame. -/
theorem frame_setJp_of_ge {m mm : Runtime} (h : frame m mm) {j : JpId}
    (hj : m.jps.length ≤ j) (x : JpState) : frame m (mm.setJp j x) := by
  obtain ⟨a, b, c, d, e⟩ := h
  refine ⟨a, b, c, ?_, fun i hi => ?_⟩
  · simpa [Runtime.setJp] using d
  · have hne : j ≠ i := (Nat.ne_of_lt (lt_of_lt_of_le hi hj)).symm
    simp only [Runtime.setJp]
    rw [List.get?_set_ne x mm.jps hne]
    exact e i hi

/-- emitting only touches the current queue, the end-of-instant queue and
the signal store: it is a frame extension. -/
theorem frame_sigEmit (m : Runtime) (s : SigId) (v : Val) :
    frame m (sigEmit m s v) :=
  ⟨sigEmit_next m s v, sigEmit_instant m s v, sigEmit_result m s v,
    le_of_eq (congrArg List.length (sigEmit_jps m s v)).symm,
    fun j _ => by rw [sigEmit_jps]⟩

theorem getJp_lt {m : Runtime} {j : JpId} {x : JpState} (h : m.getJp j = some x) :
    j < m.jps.length := by
  rcases List.get?_eq_some.mp h with ⟨e, _⟩
  exact e

theorem getJp_setJp {m : Runtime} {j : JpId} (hj : j < m.jps.length) (x : JpState) :
    (m.setJp j x).getJp j = some x :=
  List.get?_set_eq_of_lt x hj

theorem getJp_concat (m : Runtime) (x : JpState) :
    ({ m with jps := m.jps ++ [x] } : Runtime).getJp m.jps.length = some x := by
  simp [Runtime.getJp, List.get?_concat_length]

/-! ### Elimination principles for one machine step -/

theorem exec_done_elim {g : Nat} {t : Job} {m mf m1 : Runtime}
    (h : exec g t m = some mf) (hs : step t m = .done m1) :
    (m.panicked.isSome = true ∧ mf = m) ∨ (m.panicked = none ∧ mf = m1) := by
  match g with
  | 0 => simp at h
  | Nat.succ g =>
    rw [exec_succ_eq] at h
    by_cases hp : m.panicked.isSome
    · rw [if_pos hp] at h; cases h; exact Or.inl ⟨hp, rfl⟩
    · rw [if_neg hp, hs] at h
      replace h : some m1 = some mf := h
      cases h
      exact Or.inr ⟨Option.not_isSome_iff_eq_none.mp hp, rfl⟩

theorem exec_jump_elim {g : Nat} {t : Job} {m mf : Runtime} {t1 : Job} {m1 : Runtime}
    (h : exec g t m = some mf) (hs : step t m = .jump t1 m1) :
    (m.panicked.isSome = true ∧ mf = m) ∨
    (∃ g', g' < g ∧ m.panicked = none ∧ exec g' t1 m1 = some mf) := by
  match g with
  | 0 => simp at h
  | Nat.succ g =>
    rw [exec_succ_eq] at h
    by_cases hp : m.panicked.isSome
    · rw [if_pos hp] at h; cases h; exact Or.inl ⟨hp, rfl⟩
    · rw [if_neg hp, hs] at h
      exact Or.inr ⟨g, Nat.lt_succ_self g, Option.not_isSome_iff_eq_none.mp hp, h⟩

theorem exec_fork_elim {g : Nat} {t : Job} {m mf : Runtime} {t1 : Job} {m1 : Runtime}
    {t2 : Job} (h : exec g t m = some mf) (hs : step t m = .fork t1 m1 t2) :
    (m.panicked.isSome = true ∧ mf = m) ∨
    (∃ g' ma, g' < g ∧ m.panicked = none ∧
      exec g' t1 m1 = some ma ∧ exec g' t2 ma = some mf) := by
  match g with
  | 0 => simp at h
  | Nat.succ g =>
    rw [exec_succ_eq] at h
    by_cases hp : m.panicked.isSome
    · rw [if_pos hp] at h; cases h; exact Or.inl ⟨hp, rfl⟩
    · rw [if_neg hp, hs] at h
      rcases Option.bind_eq_some.mp h with ⟨ma, h1, h2⟩
      exact Or.inr ⟨g, ma, Nat.lt_succ_self g, Option.not_isSome_iff_eq_none.mp hp, h1, h2⟩

/-- a successful run forces positive fuel. -/
theorem exec_pos {g : Nat} {t : Job} {m mf : Runtime} (h : exec g t m = some mf) :
    1 ≤ g := by
  match g with
  | 0 => simp at h
  | Nat.succ g => omega

/-- a run from a panicked state is the identity. -/
theorem exec_panicked_eq {g : Nat} {t : Job} {m mf : Runtime}
    (h : exec g t m = some mf) (hp : m.panicked.isSome = true) : mf = m := by
  have := exec_panicked t hp (exec_pos h)
  rw [this] at h
  cases h
  rfl

/-- The burst theorem: a suspension-free process, called in any machine
state, runs to completion within the current instant — the machine
reaches a state `mm` related to the start state by `frame` (same
next-instant queue, same instant counter, same result slot, all
pre-existing join points untouched) and the continuation is invoked
there with the process's value (`evalNow` / `evalNowM`); a panic inside
the burst short-circuits every remaining call. -/
theorem burst : ∀ g,
    (∀ (p : Process) (k : Cont) (m mf : Runtime), p.noSusp = true →
      exec g (.callP p k) m = some mf →
      ∃ g1 mm, g1 ≤ g ∧ frame m mm ∧ exec g1 (.invK k p.evalNow) mm = some mf) ∧
    (∀ (p : Process) (km : ContM) (m mf : Runtime), p.noSusp = true →
      exec g (.callM p km) m = some mf →
      ∃ g1 mm, g1 ≤ g ∧ frame m mm ∧
        exec g1 (.invM km p.evalNowM.1 p.evalNowM.2) mm = some mf) := by
  intro g
  induction g using Nat.strong_induction_on with
  | _ g ih =>
    constructor
    · intro p k m mf hno h
      cases p with
      | pause p => simp [Process.noSusp] at hno
      | awaitImmediate s => simp [Process.noSusp] at hno
      | await s => simp [Process.noSusp] at hno
      | awaitIn s => simp [Process.noSusp] at hno
      | awaitOneImmediate s => simp [Process.noSusp] at hno
      | present s p q => simp [Process.noSusp] at hno
      | loopWhile p => simp [Process.noSusp] at hno
      | value v =>
        rcases exec_jump_elim h rfl with ⟨hp, hmf⟩ | ⟨g', hg', _, h1⟩
        · exact ⟨g, m, le_refl g, frame_refl m,
            by rw [hmf]; exact exec_panicked _ hp (exec_pos h)⟩
        · exact ⟨g', m, le_of_lt hg', frame_refl m, h1⟩
      | map p st f =>
        simp only [Process.noSusp] at hno
        rcases exec_jump_elim h rfl with ⟨hp, hmf⟩ | ⟨g', hg', _, h1⟩
        · exact ⟨g, m, le_refl g, frame_refl m,
            by rw [hmf]; exact exec_panicked _ hp (exec_pos h)⟩
        · obtain ⟨g1, mm, hle1, hfr1, hk1⟩ := (ih g' hg').1 p (.kmap st f k) m mf hno h1
          rcases exec_jump_elim hk1 rfl with ⟨hp2, hmf⟩ | ⟨g2, hg2, _, h2⟩
          · exact ⟨g1, mm, by omega, hfr1,
              by rw [hmf]; exact exec_panicked _ hp2 (exec_pos hk1)⟩
          · exact ⟨g2, mm, by omega, hfr1, h2⟩
      | thenP p q =>
        simp only [Process.noSusp, Bool.and_eq_true] at hno
        rcases exec_jump_elim h rfl with ⟨hp, hmf⟩ | ⟨g', hg', _, h1⟩
        · exact ⟨g, m, le_refl g, frame_refl m,
            by rw [hmf]; exact exec_panicked _ hp (exec_pos h)⟩
        · obtain ⟨g1, mm, hle1, hfr1, hk1⟩ := (ih g' hg').1 p (.kseq q k) m mf hno.1 h1
          rcases exec_jump_elim hk1 rfl with ⟨hp2, hmf⟩ | ⟨g2, hg2, _, h2⟩
          · exact ⟨g1, mm, by omega, hfr1,
              by rw [hmf]; exact exec_panicked _ hp2 (exec_pos hk1)⟩
          · obtain ⟨g3, mmq, hle3, hfr3, hk3⟩ :=
              (ih g2 (by omega)).1 q k mm mf hno.2 h2
            exact ⟨g3, mmq, by omega, frame_trans hfr1 hfr3, hk3⟩
      | emit s p =>
        simp only [Process.noSusp] at hno
        rcases exec_jump_elim h rfl with ⟨hp, hmf⟩ | ⟨g', hg', _, h1⟩
        · exact ⟨g, m, le_refl g, frame_refl m,
            by rw [hmf]; exact exec_panicked _ hp (exec_pos h)⟩
        · obtain ⟨g1, mm, hle1, hfr1, hk1⟩ := (ih g' hg').1 p (.kemit s k) m mf hno h1
          rcases exec_jump_elim hk1 rfl with ⟨hp2, hmf⟩ | ⟨g2, hg2, _, h2⟩
          · exact ⟨g1, mm, by omega, hfr1,
              by rw [hmf]; exact exec_panicked _ hp2 (exec_pos hk1)⟩
          · exact ⟨g2, sigEmit mm s p.evalNow, by omega,
              frame_trans hfr1 (frame_sigEmit mm s p.evalNow), h2⟩
      | join p q =>
        simp only [Process.noSusp, Bool.and_eq_true] at hno
        rcases exec_fork_elim h rfl with ⟨hp, hmf⟩ | ⟨g', ma, hg', _, h1, h2⟩
        · exact ⟨g, m, le_refl g, frame_refl m,
            by rw [hmf]; exact exec_panicked _ hp (exec_pos h)⟩
        · obtain ⟨g1, mmp, hle1, hfr1, hk1⟩ :=
            (ih g' hg').1 p (.kjoin1 m.jps.length) _ ma hno.1 h1
          by_cases hpp : mmp.panicked.isSome
          · have hma := exec_panicked_eq hk1 hpp
            rw [hma] at h2
            have hmf := exec_panicked_eq h2 hpp
            exact ⟨g1, mmp, by omega,
              frame_trans (frame_allocJp m (.jp none none (some k))) hfr1,
              by rw [hmf]; exact exec_panicked _ hpp (exec_pos hk1)⟩
          · have hlen1 : m.jps.length <
                ({ m with jps := m.jps ++ [JpState.jp none none (some k)] } : Runtime).jps.length := by
              simp
            have hjp : mmp.getJp m.jps.length = some (.jp none none (some k)) := by
              have hpre := hfr1.2.2.2.2 m.jps.length hlen1
              simp only [Runtime.getJp]
              rw [hpre]
              simp [List.get?_concat_length]
            have hst1 : step (.invK (.kjoin1 m.jps.length) p.evalNow) mmp =
                .done (mmp.setJp m.jps.length (.jp (some p.evalNow) none (some k))) := by
              simp only [step, hjp]
            rcases exec_done_elim hk1 hst1 with ⟨hc, _⟩ | ⟨_, hma⟩
            · rw [hc] at hpp; exact absurd rfl hpp
            · rw [hma] at h2
              have hlenp : m.jps.length < mmp.jps.length := by
                have hl := hfr1.2.2.2.1
                simp at hl
                omega
              have hfrA : frame m (mmp.setJp m.jps.length
                  (.jp (some p.evalNow) none (some k))) :=
                frame_setJp_of_ge
                  (frame_trans (frame_allocJp m (.jp none none (some k))) hfr1)
                  (le_refl _) _
              obtain ⟨g3, mmq, hle3, hfr3, hk3⟩ :=
                (ih g' hg').1 q (.kjoin2 m.jps.length)
                  (mmp.setJp m.jps.length (.jp (some p.evalNow) none (some k)))
                  mf hno.2 h2
              by_cases hpq : mmq.panicked.isSome
              · have hmf := exec_panicked_eq hk3 hpq
                exact ⟨g3, mmq, by omega, frame_trans hfrA hfr3,
                  by rw [hmf]; exact exec_panicked _ hpq (exec_pos hk3)⟩
              · have hjp2 : mmq.getJp m.jps.length =
                    some (.jp (some p.evalNow) none (some k)) := by
                  have hpre := hfr3.2.2.2.2 m.jps.length
                    (by simpa [Runtime.setJp] using hlenp)
                  simp only [Runtime.getJp] at hpre ⊢
                  rw [hpre]
                  exact getJp_setJp hlenp _
                have hst2 : step (.invK (.kjoin2 m.jps.length) q.evalNow) mmq =
                    .jump (.invK k (.pair p.evalNow q.evalNow))
                      (mmq.setJp m.jps.length (.jp none none none)) := by
                  simp only [step, hjp2]
                rcases exec_jump_elim hk3 hst2 with ⟨hc, _⟩ | ⟨g4, hg4, _, h4⟩
                · rw [hc] at hpq; exact absurd rfl hpq
                · exact ⟨g4, mmq.setJp m.jps.length (.jp none none none), by omega,
                    frame_setJp_of_ge (frame_trans hfrA hfr3) (le_refl _) _, h4⟩
    · intro p km m mf hno h
      cases p with
      | pause p => simp [Process.noSusp] at hno
      | awaitImmediate s => simp [Process.noSusp] at hno
      | await s => simp [Process.noSusp] at hno
      | awaitIn s => simp [Process.noSusp] at hno
      | awaitOneImmediate s => simp [Process.noSusp] at hno
      | present s p q => simp [Process.noSusp] at hno
      | loopWhile p => simp [Process.noSusp] at hno
      | value v =>
        rcases exec_jump_elim h rfl with ⟨hp, hmf⟩ | ⟨g', hg', _, h1⟩
        · exact ⟨g, m, le_refl g, frame_refl m,
            by rw [hmf]; exact exec_panicked _ hp (exec_pos h)⟩
        · exact ⟨g', m, le_of_lt hg', frame_refl m, h1⟩
      | map p st f =>
        simp only [Process.noSusp] at hno
        rcases exec_jump_elim h rfl with ⟨hp, hmf⟩ | ⟨g', hg', _, h1⟩
        · exact ⟨g, m, le_refl g, frame_refl m,
            by rw [hmf]; exact exec_panicked _ hp (exec_pos h)⟩
        · obtain ⟨g1, mm, hle1, hfr1, hk1⟩ := (ih g' hg').2 p (.kmmap st f km) m mf hno h1
          rcases exec_jump_elim hk1 rfl with ⟨hp2, hmf⟩ | ⟨g2, hg2, _, h2⟩
          · exact ⟨g1, mm, by omega, hfr1,
              by rw [hmf]; exact exec_panicked _ hp2 (exec_pos hk1)⟩
          · exact ⟨g2, mm, by omega, hfr1, h2⟩
      | thenP p q =>
        simp only [Process.noSusp, Bool.and_eq_true] at hno
        rcases exec_jump_elim h rfl with ⟨hp, hmf⟩ | ⟨g', hg', _, h1⟩
        · exact ⟨g, m, le_refl g, frame_refl m,
            by rw [hmf]; exact exec_panicked _ hp (exec_pos h)⟩
        · obtain ⟨g1, mm, hle1, hfr1, hk1⟩ := (ih g' hg').2 p (.kmseq1 q km) m mf hno.1 h1
          rcases exec_jump_elim hk1 rfl with ⟨hp2, hmf⟩ | ⟨g2, hg2, _, h2⟩
          · exact ⟨g1, mm, by omega, hfr1,
              by rw [hmf]; exact exec_panicked _ hp2 (exec_pos hk1)⟩
          · obtain ⟨g3, mmq, hle3, hfr3, hk3⟩ :=
              (ih g2 (by omega)).2 q (.kmseq2 p.evalNowM.1 km) mm mf hno.2 h2
            rcases exec_jump_elim hk3 rfl with ⟨hp4, hmf⟩ | ⟨g4, hg4, _, h4⟩
            · exact ⟨g3, mmq, by omega, frame_trans hfr1 hfr3,
                by rw [hmf]; exact exec_panicked _ hp4 (exec_pos hk3)⟩
            · exact ⟨g4, mmq, by omega, frame_trans hfr1 hfr3, h4⟩
      | emit s p =>
        simp only [Process.noSusp] at hno
        rcases exec_jump_elim h rfl with ⟨hp, hmf⟩ | ⟨g', hg', _, h1⟩
        · exact ⟨g, m, le_refl g, frame_refl m,
            by rw [hmf]; exact exec_panicked _ hp (exec_pos h)⟩
        · obtain ⟨g1, mm, hle1, hfr1, hk1⟩ := (ih g' hg').2 p (.kmemit s km) m mf hno h1
          rcases exec_jump_elim hk1 rfl with ⟨hp2, hmf⟩ | ⟨g2, hg2, _, h2⟩
          · exact ⟨g1, mm, by omega, hfr1,
              by rw [hmf]; exact exec_panicked _ hp2 (exec_pos hk1)⟩
          · exact ⟨g2, sigEmit mm s p.evalNowM.2, by omega,
              frame_trans hfr1 (frame_sigEmit mm s p.evalNowM.2), h2⟩
      | join p q =>
        simp only [Process.noSusp, Bool.and_eq_true] at hno
        rcases exec_fork_elim h rfl with ⟨hp, hmf⟩ | ⟨g', ma, hg', _, h1, h2⟩
        · exact ⟨g, m, le_refl g, frame_refl m,
            by rw [hmf]; exact exec_panicked _ hp (exec_pos h)⟩
        · obtain ⟨g1, mmp, hle1, hfr1, hk1⟩ :=
            (ih g' hg').2 p (.kmjoin1 m.jps.length) _ ma hno.1 h1
          by_cases hpp : mmp.panicked.isSome
          · have hma := exec_panicked_eq hk1 hpp
            rw [hma] at h2
            have hmf := exec_panicked_eq h2 hpp
            exact ⟨g1, mmp, by omega,
              frame_trans (frame_allocJp m (.jpM none none (some km))) hfr1,
              by rw [hmf]; exact exec_panicked _ hpp (exec_pos hk1)⟩
          · have hlen1 : m.jps.length <
                ({ m with jps := m.jps ++ [JpState.jpM none none (some km)] } : Runtime).jps.length := by
              simp
            have hjp : mmp.getJp m.jps.length = some (.jpM none none (some km)) := by
              have hpre := hfr1.2.2.2.2 m.jps.length hlen1
              simp only [Runtime.getJp]
              rw [hpre]
              simp [List.get?_concat_length]
            have hst1 : step (.invM (.kmjoin1 m.jps.length) p.evalNowM.1 p.evalNowM.2) mmp =
                .done (mmp.setJp m.jps.length
                  (.jpM (some (p.evalNowM.1, p.evalNowM.2)) none (some km))) := by
              simp only [step, hjp]
            rcases exec_done_elim hk1 hst1 with ⟨hc, _⟩ | ⟨_, hma⟩
            · rw [hc] at hpp; exact absurd rfl hpp
            · rw [hma] at h2
              have hlenp : m.jps.length < mmp.jps.length := by
                have hl := hfr1.2.2.2.1
                simp at hl
                omega
              have hfrA : frame m (mmp.setJp m.jps.length
                  (.jpM (some (p.evalNowM.1, p.evalNowM.2)) none (some km))) :=
                frame_setJp_of_ge
                  (frame_trans (frame_allocJp m (.jpM none none (some km))) hfr1)
                  (le_refl _) _
              obtain ⟨g3, mmq, hle3, hfr3, hk3⟩ :=
                (ih g' hg').2 q (.kmjoin2 m.jps.length)
                  (mmp.setJp m.jps.length
                    (.jpM (some (p.evalNowM.1, p.evalNowM.2)) none (some km)))
                  mf hno.2 h2
              by_cases hpq : mmq.panicked.isSome
              · have hmf := exec_panicked_eq hk3 hpq
                exact ⟨g3, mmq, by omega, frame_trans hfrA hfr3,
                  by rw [hmf]; exact exec_panicked _ hpq (exec_pos hk3)⟩
              · have hjp2 : mmq.getJp m.jps.length =
                    some (.jpM (some (p.evalNowM.1, p.evalNowM.2)) none (some km)) := by
                  have hpre := hfr3.2.2.2.2 m.jps.length
                    (by simpa [Runtime.setJp] using hlenp)
                  simp only [Runtime.getJp] at hpre ⊢
                  rw [hpre]
                  exact getJp_setJp hlenp _
                have hst2 : step (.invM (.kmjoin2 m.jps.length) q.evalNowM.1 q.evalNowM.2) mmq =
                    .jump (.invM km (.join p.evalNowM.1 q.evalNowM.1)
                        (.pair p.evalNowM.2 q.evalNowM.2))
                      (mmq.setJp m.jps.length (.jpM none none none)) := by
                  simp only [step, hjp2]
                rcases exec_jump_elim hk3 hst2 with ⟨hc, _⟩ | ⟨g4, hg4, _, h4⟩
                · rw [hc] at hpq; exact absurd rfl hpq
                · exact ⟨g4, mmq.setJp m.jps.length (.jpM none none none), by omega,
                    frame_setJp_of_ge (frame_trans hfrA hfr3) (le_refl _) _, h4⟩

/-! ### Forward introduction lemmas for building executions -/

/-- C5.  `Pause::call` (src/engine/process.rs lines 128-137) together
with continuation `Pause` (src/engine/continuation.rs lines 61-79): for
every suspension-free process `p`, running `p.pause()` completes `p`
within the current instant and leaves exactly one new continuation —
the delivery of `p`'s value to the outer continuation — on the
`next_instant` queue, with the instant counter and result slot
untouched; by the scheduler's phase B that continuation runs in the
immediately following instant.  Concretely,
`value(()).pause().pause().map(|_| 7)` returns `Some(7)` after three
instants, and returns `None` if capped at two instants. -/
theorem C5_pause_exactly_one_instant :
    (∀ g (p : Process) (k : Cont) (m mf : Runtime), p.noSusp = true →
      exec g (.callP (.pause p) k) m = some mf → mf.panicked = none →
      mf.next = Cont.withVal k p.evalNow :: m.next ∧
      mf.instant = m.instant ∧ mf.result = m.result) ∧
    executeProcessSteps 300 [] pausePause7 4 (-1) = some (.ok (some (.int 7))) ∧
    runInstants 300 [] pausePause7 (-1) = some 3 ∧
    executeProcessSteps 300 [] pausePause7 4 2 = some (.ok none) := by
  refine ⟨?_, rfl, rfl, rfl⟩
  intro g p k m mf hno h hpan
  rcases exec_jump_elim h rfl with ⟨hp, hmf⟩ | ⟨g', hg', _, h1⟩
  · rw [hmf] at hpan
    rw [hpan] at hp
    simp at hp
  · obtain ⟨g1, mm, hle1, hfr1, hk1⟩ := (burst g').1 p (.kpause k) m mf hno h1
    rcases exec_done_elim hk1 rfl with ⟨hp2, hmf⟩ | ⟨_, hmf⟩
    · rw [hmf] at hpan
      rw [hpan] at hp2
      simp at hp2
    · rw [hmf]
      exact ⟨by rw [hfr1.1], hfr1.2.1, hfr1.2.2.1⟩

theorem C5_pause_exactly_one_instant_witness :
    ((exec 20 (.callP (.pause (.value (.int 5))) .store)
        (initRuntime [] (.value .unit))).getD default).next =
      Cont.withVal .store (.int 5) :: (initRuntime [] (.value .unit)).next ∧
    ((exec 20 (.callP (.pause (.value (.int 5))) .store)
        (initRuntime [] (.value .unit))).getD default).instant =
      (initRuntime [] (.value .unit)).instant ∧
    ((exec 20 (.callP (.pause (.value (.int 5))) .store)
        (initRuntime [] (.value .unit))).getD default).result =
      (initRuntime [] (.value .unit)).result :=
  C5_pause_exactly_one_instant.1 20 (.value (.int 5)) .store
    (initRuntime [] (.value .unit)) _ rfl rfl rfl

/-! ### C8: join and argument order -/

/-- the deterministic sub-fragment used for the completeness direction of
the loop characterization: no emission (an emission on a value signal
panics at end of instant, see C2/C3) and no suspension, so a burst can
always be completed from any non-panicked machine. -/
def Process.det : Process → Bool
  | .value _ => true
  | .map p _ _ => p.det
  | .thenP p q => p.det && q.det
  | .join p q => p.det && q.det
  | _ => false

theorem det_noSusp : ∀ p : Process, p.det = true → p.noSusp = true := by
  intro p
  induction p with
  | value v => intro _; rfl
  | map p st f ih =>
    intro h; simp [Process.det] at h; simp [Process.noSusp]; exact ih h
  | thenP p q ihp ihq =>
    intro h; simp [Process.det] at h; simp [Process.noSusp]
    exact ⟨ihp h.1, ihq h.2⟩
  | join p q ihp ihq =>
    intro h; simp [Process.det] at h; simp [Process.noSusp]
    exact ⟨ihp h.1, ihq h.2⟩
  | pause p ih => intro h; simp [Process.det] at h
  | emit s p ih => intro h; simp [Process.det] at h
  | awaitImmediate s => intro h; simp [Process.det] at h
  | await s => intro h; simp [Process.det] at h
  | awaitIn s => intro h; simp [Process.det] at h
  | awaitOneImmediate s => intro h; simp [Process.det] at h
  | present s p q ihp ihq => intro h; simp [Process.det] at h
  | loopWhile p ih => intro h; simp [Process.det] at h

end ReactiveRS
